import Mathlib

/-!
# Verification of the STM32 Serial Shell command-line core (`em-cli.c`)

This file gives a shallow embedding, in Lean 4, of the command registration,
tokenizing and dispatch engine implemented in `src/em-cli.c`, and proves the
behavioural properties claimed by the specification.

Modelling conventions:
* C strings are `List Char`; the end of the list plays the role of the
  terminating NUL byte, so reading at or past the end yields `CHAR_NULL`
  (function `charAt`).  NULL pointers are modelled with `Option`.
* The C `base_type` (`int32_t`) is modelled as `Int`; `size_t` as `Nat`.
* A caller-supplied output buffer of capacity `cap` is modelled by the list of
  bytes the code leaves in memory starting at the buffer base, including every
  byte the code writes (so a list longer than `cap` is precisely a buffer
  overflow).  `strncpy(dst, src, cap)` becomes `strncpy_model src cap`
  (copy then NUL-pad to exactly `cap` bytes); a handler that first
  `memset`s the buffer and then stores `content` leaves image
  `writeImage content cap`.
* The `static int32_t command_index` of `cli_process_command` and the global
  registry `g_commands_array`/`g_command_count` are threaded explicitly:
  `cli_process_command` takes the registry and the cursor and returns the
  written buffer image, the returned flag, and the new cursor.
* C function pointers are modelled by the closed inductive `HandlerTag`:
  the three built-in handlers plus `custom` for arbitrary registered handlers.
-/

namespace EmCli

/-- Character constant `CHAR_SPACE` of `em-cli.c`: `' '`. -/
def CHAR_SPACE : Char := ' '

/-- Character constant `CHAR_NULL` of `em-cli.c`: the NUL byte. -/
def CHAR_NULL : Char := Char.ofNat 0

/-- Character constant `CHAR_CARRIAGE_RET` of `em-cli.c`. -/
def CHAR_CARRIAGE_RET : Char := '\r'

/-- Character constant `CHAR_NEWLINE` of `em-cli.c`. -/
def CHAR_NEWLINE : Char := '\n'

/-- Constant `CLI_FALSE` of `em-cli.h`. -/
def CLI_FALSE : Int := 0

/-- Constant `CLI_TRUE` of `em-cli.h`. -/
def CLI_TRUE : Int := 1

/-- Constant `CLI_PASS` of `em-cli.h`. -/
def CLI_PASS : Int := 1

/-- Constant `CLI_MAX_COMMANDS` of `em-cli.h`. -/
def CLI_MAX_COMMANDS : Nat := 10

/-- Constant `CLI_WRITE_BUFFER_SIZE` of `em-cli.h`. -/
def CLI_WRITE_BUFFER_SIZE : Nat := 512

/-- The fixed message `CLI_MSG_INCORRECT_PARAMS` of `em-cli.c`. -/
def CLI_MSG_INCORRECT_PARAMS : List Char :=
  "Incorrect command parameter(s). Enter \"help\" to view commands.\r\n\r\n".toList

/-- The fixed message `CLI_MSG_NOT_RECOGNIZED` of `em-cli.c`. -/
def CLI_MSG_NOT_RECOGNIZED : List Char :=
  "Command not recognized. Enter 'help' to view commands.\r\n\r\n".toList

/-- The fixed message `CLI_MSG_HELP_HEADER` of `em-cli.c`. -/
def CLI_MSG_HELP_HEADER : List Char := "Available commands:\r\n".toList

/-- The fixed message `CLI_MSG_MISSING_PARAM` of `em-cli.c`. -/
def CLI_MSG_MISSING_PARAM : List Char := "Error: Missing parameter\r\n".toList

/-- Reading byte `i` of the line: past the end of the list stands the
terminating NUL, so out-of-range reads give `CHAR_NULL`. -/
def charAt (s : List Char) (i : Nat) : Char := s.getD i CHAR_NULL

/-- The first byte of a suffix of the line (`*p` in the C code). -/
def headChar (s : List Char) : Char := s.headD CHAR_NULL

/-- A byte that terminates scanning: NUL, CR or LF. -/
def isTermChar (c : Char) : Bool :=
  c = CHAR_NULL || c = CHAR_CARRIAGE_RET || c = CHAR_NEWLINE

/-- A byte that is part of a word: neither a terminator nor a space. -/
def isWordChar (c : Char) : Bool := !(isTermChar c) && c ≠ CHAR_SPACE

/-- Model of `strncpy(dst, src, n)`: copy at most `n` bytes of `src`, then pad with NUL
bytes up to exactly `n` written bytes. -/
def strncpy_model (src : List Char) (n : Nat) : List Char :=
  src.take n ++ List.replicate (n - src.length) CHAR_NULL

/-- Buffer image after `memset(dst, 0, cap)` followed by storing `content`
from the base of the buffer.  When `content` is longer than `cap` the image is
longer than the buffer: a buffer overflow. -/
def writeImage (content : List Char) (cap : Nat) : List Char :=
  content ++ List.replicate (cap - content.length) CHAR_NULL

/-- The C string held in a buffer image: its bytes up to the first NUL. -/
def cstring (buf : List Char) : List Char := buf.takeWhile (fun c => c ≠ CHAR_NULL)

/-! ## Tokenizer: `cli_get_parameter_count` (em-cli.c lines 362-401) -/

/-- The scanning loop of `cli_get_parameter_count`: walk the line until NUL,
CR or LF, incrementing `param_count` at the first space of every run of
spaces (`is_prev_space` tracks whether the previous byte was a space), and
finally decrement once if the scan ended inside a run of spaces. -/
def cli_get_parameter_count_loop : List Char → Int → Bool → Int
  | [], param_count, is_prev_space =>
      if is_prev_space then param_count - 1 else param_count
  | c :: rest, param_count, is_prev_space =>
      if isTermChar c then
        (if is_prev_space then param_count - 1 else param_count)
      else if c = CHAR_SPACE then
        if is_prev_space then
          cli_get_parameter_count_loop rest param_count is_prev_space
        else
          cli_get_parameter_count_loop rest (param_count + 1) true
      else
        cli_get_parameter_count_loop rest param_count false

/-- Function `cli_get_parameter_count` of `em-cli.c`: a NULL line counts 0 parameters;
otherwise run the scanning loop from count 0. -/
def cli_get_parameter_count : Option (List Char) → Int
  | none => 0
  | some s => cli_get_parameter_count_loop s 0 false

/-! ## Tokenizer: `cli_get_parameter` (em-cli.c lines 413-482) -/

/-- The first inner loop of `cli_get_parameter`: advance past the current
word, stopping at NUL, space, CR or LF. -/
def skipWord (s : List Char) : List Char := s.dropWhile isWordChar

/-- The second inner loop of `cli_get_parameter`: advance past spaces. -/
def skipSpaces (s : List Char) : List Char := s.dropWhile (fun c => c = CHAR_SPACE)

/-- The outer loop of `cli_get_parameter`, running while
`params_found < wanted_parameter`; `n` is the number of parameters still to
be found.  Each iteration skips the current word and the following spaces;
if the scan reaches a terminator the loop breaks with NULL, otherwise a
parameter was found: when it is the wanted one its suffix pointer and length
are returned (a zero-length word would give NULL), else the loop continues. -/
def cli_get_parameter_loop : List Char → Nat → Option (List Char × Int)
  | s, n =>
      let s2 := skipSpaces (skipWord s)
      if isTermChar (headChar s2) then none
      else
        match n with
        | 0 => none
        | 1 =>
            let len := (s2.takeWhile isWordChar).length
            if len = 0 then none else some (s2, (len : Int))
        | Nat.succ (Nat.succ m) => cli_get_parameter_loop s2 (Nat.succ m)

/-- Function `cli_get_parameter` of `em-cli.c`: NULL line gives NULL; a non-positive
`wanted_parameter` makes the outer loop exit immediately with NULL; otherwise
run the outer loop. -/
def cli_get_parameter (p_command_string : Option (List Char))
    (wanted_parameter : Int) : Option (List Char × Int) :=
  match p_command_string with
  | none => none
  | some s =>
      if wanted_parameter ≤ 0 then none
      else cli_get_parameter_loop s wanted_parameter.toNat

/-! ## Command registry (em-cli.h, em-cli.c lines 34-83) -/

/-- The handler function pointer `p_command_interpreter`.  The repository's
handlers form a closed set (`cli_help_interpreter`, `cli_set_interpreter`,
`cli_get_interpreter`); `custom` stands for any other registered handler,
given directly as a function from buffer capacity and input line to the
written buffer image and the returned flag. -/
inductive HandlerTag where
  | helpTag : HandlerTag
  | setTag : HandlerTag
  | getTag : HandlerTag
  | custom (f : Nat → List Char → List Char × Int) : HandlerTag

/-- Structure `cli_command_definition_t` of `em-cli.h`. -/
structure cli_command_definition_t where
  p_command : List Char
  p_help_string : List Char
  p_command_interpreter : HandlerTag
  expected_parameter_count : Int

/-- Function `cli_register_command` of `em-cli.c`: the registry (the populated slots of
`g_commands_array`, whose count is `g_command_count`) together with the
returned flag.  Registration fails on a NULL descriptor or a full registry,
leaving the registry unchanged; otherwise the descriptor is copied into the
next free slot and the count increments. -/
def cli_register_command (registry : List cli_command_definition_t)
    (p_command_to_register : Option cli_command_definition_t) :
    List cli_command_definition_t × Int :=
  match p_command_to_register with
  | none => (registry, CLI_FALSE)
  | some cmd =>
      if registry.length < CLI_MAX_COMMANDS then
        (registry ++ [cmd], CLI_TRUE)
      else
        (registry, CLI_FALSE)

/-! ## Built-in handlers (em-cli.c lines 190-352) -/

/-- The command-listing loop of `cli_help_interpreter`: for every registered
command after slot 0, if `current_len + cmd_name_len + 5 < write_buffer_len`
append `"  "`, the name and `"\r\n"` (the three `strncat` calls, which under
that guard always append in full), else skip the entry and continue. -/
def cli_help_loop : List cli_command_definition_t → Nat → List Char → List Char
  | [], _, content => content
  | cmd :: rest, write_buffer_len, content =>
      if content.length + cmd.p_command.length + 5 < write_buffer_len then
        cli_help_loop rest write_buffer_len
          (content ++ "  ".toList ++ cmd.p_command ++ "\r\n".toList)
      else
        cli_help_loop rest write_buffer_len content

/-- Function `cli_help_interpreter` of `em-cli.c`: zero the buffer, `strncpy` the
header (truncated to the capacity), then append one line per registered
command except slot 0, skipping entries that would not fit.  Always returns
`CLI_FALSE`. -/
def cli_help_interpreter (registry : List cli_command_definition_t)
    (write_buffer_len : Nat) (_p_command_string : List Char) : List Char × Int :=
  let content := cli_help_loop (registry.drop 1) write_buffer_len
    (CLI_MSG_HELP_HEADER.take write_buffer_len)
  (writeImage content write_buffer_len, CLI_FALSE)

/-- Function `cli_set_interpreter` of `em-cli.c`: zero the buffer; extract parameters
1 and 2; if either is NULL or its length is not `< 50` (it would not fit the
`char param[50]` staging array), `strncpy` the missing-parameter message;
otherwise `sprintf` `"Set <key> = <value>\r\n"` from the buffer base with no
capacity bound (the image exceeds the capacity when the formatted text does).
Always returns `CLI_FALSE`. -/
def cli_set_interpreter (write_buffer_len : Nat) (p_command_string : List Char) :
    List Char × Int :=
  match cli_get_parameter (some p_command_string) 1 with
  | some (s1, l1) =>
      if l1 < 50 then
        match cli_get_parameter (some p_command_string) 2 with
        | some (s2, l2) =>
            if l2 < 50 then
              (writeImage
                ("Set ".toList ++ s1.take l1.toNat ++ " = ".toList ++
                  s2.take l2.toNat ++ "\r\n".toList ++ [CHAR_NULL])
                write_buffer_len, CLI_FALSE)
            else
              (strncpy_model CLI_MSG_MISSING_PARAM write_buffer_len, CLI_FALSE)
        | none => (strncpy_model CLI_MSG_MISSING_PARAM write_buffer_len, CLI_FALSE)
      else
        (strncpy_model CLI_MSG_MISSING_PARAM write_buffer_len, CLI_FALSE)
  | none => (strncpy_model CLI_MSG_MISSING_PARAM write_buffer_len, CLI_FALSE)

/-- Function `cli_get_interpreter` of `em-cli.c`: zero the buffer; extract parameter 1;
on success `sprintf` `"Get <key>: [value not implemented]\r\n"` unbounded,
else `strncpy` the missing-parameter message.  Always returns `CLI_FALSE`. -/
def cli_get_interpreter (write_buffer_len : Nat) (p_command_string : List Char) :
    List Char × Int :=
  match cli_get_parameter (some p_command_string) 1 with
  | some (s1, l1) =>
      if l1 < 50 then
        (writeImage
          ("Get ".toList ++ s1.take l1.toNat ++ ": [value not implemented]\r\n".toList
            ++ [CHAR_NULL])
          write_buffer_len, CLI_FALSE)
      else
        (strncpy_model CLI_MSG_MISSING_PARAM write_buffer_len, CLI_FALSE)
  | none => (strncpy_model CLI_MSG_MISSING_PARAM write_buffer_len, CLI_FALSE)

/-- Dereference a handler tag: the built-in tags run the corresponding
handler (the help handler reads the registry, as the C code reads the global
`g_commands_array`), a `custom` tag runs its function. -/
def runHandler (registry : List cli_command_definition_t) :
    HandlerTag → Nat → List Char → List Char × Int
  | HandlerTag.helpTag => fun cap line => cli_help_interpreter registry cap line
  | HandlerTag.setTag => fun cap line => cli_set_interpreter cap line
  | HandlerTag.getTag => fun cap line => cli_get_interpreter cap line
  | HandlerTag.custom f => f

/-- Descriptor `g_help_command` of `em-cli.c`. -/
def g_help_command : cli_command_definition_t :=
  ⟨"help".toList, "\r\nhelp:\r\nLists all registered commands\r\n".toList,
    HandlerTag.helpTag, -1⟩

/-- Descriptor `g_set_command` of `em-cli.c`. -/
def g_set_command : cli_command_definition_t :=
  ⟨"set".toList, "\r\nset <key> <value>:\r\nSets a key-value pair\r\n".toList,
    HandlerTag.setTag, 2⟩

/-- Descriptor `g_get_command` of `em-cli.c`. -/
def g_get_command : cli_command_definition_t :=
  ⟨"get".toList, "\r\nget <key>:\r\nGets a value by key\r\n".toList,
    HandlerTag.getTag, 1⟩

/-- The registry built by `cli_init` in `main.c`: help, set, get, in order. -/
def builtinRegistry : List cli_command_definition_t :=
  [g_help_command, g_set_command, g_get_command]

/-! ## Dispatcher: `cli_process_command` (em-cli.c lines 97-178) -/

/-- The match test of the dispatch scan (em-cli.c lines 122-129): the byte of
the line at offset `strlen(name)` is a space, NUL, CR or LF, and
`strncmp(line, name, strlen(name)) == 0`, i.e. the first `strlen(name)`
bytes of the line equal the name. -/
def cmdMatches (name line : List Char) : Bool :=
  (charAt line name.length = CHAR_SPACE || charAt line name.length = CHAR_NULL ||
    charAt line name.length = CHAR_CARRIAGE_RET ||
    charAt line name.length = CHAR_NEWLINE)
  && line.take name.length == name

/-- The registry scan of `cli_process_command` (the `for` loop over
`command_index`), started at index `idx`: returns the final `command_index`
and the `is_processed` flag.  On the first matching entry the loop breaks,
after setting `is_processed = CLI_FALSE` when the entry declares a
non-negative expected parameter count that differs from
`cli_get_parameter_count` on the line; if no entry matches the loop ends with
`command_index = g_command_count` and `is_processed` still `CLI_PASS`. -/
def cli_search (line : List Char) :
    List cli_command_definition_t → Int → Int × Int
  | [], idx => (idx, CLI_PASS)
  | cmd :: rest, idx =>
      if cmdMatches cmd.p_command line then
        if 0 ≤ cmd.expected_parameter_count then
          if cli_get_parameter_count (some line) ≠ cmd.expected_parameter_count then
            (idx, CLI_FALSE)
          else (idx, CLI_PASS)
        else (idx, CLI_PASS)
      else cli_search line rest (idx + 1)

/-- Placeholder descriptor for the (never taken) out-of-range registry read. -/
def defaultCommand : cli_command_definition_t :=
  ⟨[], [], HandlerTag.custom (fun _ _ => ([], CLI_FALSE)), -1⟩

/-- Function `cli_process_command` of `em-cli.c`, with the global registry and the
static `command_index` threaded explicitly: given the registry, the input
line, the buffer capacity and the incoming cursor, return the written buffer
image, the returned flag and the outgoing cursor.  When the cursor is 0 the
registry is scanned, otherwise the scan is skipped and `is_processed` stays
`CLI_PASS`.  An arity mismatch writes `CLI_MSG_INCORRECT_PARAMS`; a cursor
inside the registry invokes that slot's handler, and the cursor is reset to 0
exactly when the handler returns `CLI_FALSE`; otherwise
`CLI_MSG_NOT_RECOGNIZED` is written and `CLI_FALSE` returned (the cursor
keeping the value the scan left in it). -/
def cli_process_command (registry : List cli_command_definition_t)
    (p_command_input : List Char) (write_buffer_len : Nat)
    (command_index : Int) : List Char × Int × Int :=
  let r := if command_index = 0 then cli_search p_command_input registry 0
           else (command_index, CLI_PASS)
  if r.2 = CLI_FALSE then
    (strncpy_model CLI_MSG_INCORRECT_PARAMS write_buffer_len, CLI_FALSE, r.1)
  else if r.1 < (registry.length : Int) then
    let cmd := registry.getD r.1.toNat defaultCommand
    let h := runHandler registry cmd.p_command_interpreter write_buffer_len
      p_command_input
    (h.1, h.2, if h.2 = CLI_FALSE then 0 else r.1)
  else
    (strncpy_model CLI_MSG_NOT_RECOGNIZED write_buffer_len, CLI_FALSE, r.1)

/-! ## Declarative word splitting

The specification describes the tokenizer in terms of "whitespace-delimited
words" of the line up to its first terminator.  The following definitions
state that reading directly; the theorems below relate the C functions to it.
-/

/-- The line up to (excluding) its first NUL, CR or LF. -/
def truncLine (s : List Char) : List Char := s.takeWhile (fun c => !(isTermChar c))

/-- Split a list of characters at spaces, keeping empty pieces. -/
def splitSp : List Char → List (List Char)
  | [] => [[]]
  | c :: rest =>
      match splitSp rest with
      | [] => []
      | w :: ws => if c = CHAR_SPACE then [] :: w :: ws else (c :: w) :: ws

/-- The whitespace-delimited words of a (already truncated) line: split at
spaces and drop the empty pieces. -/
def lineWords (t : List Char) : List (List Char) :=
  (splitSp t).filter (fun w => !w.isEmpty)

/-- Correction term for the counting loop started with
`is_prev_space = false`: 1 when the list opens with a non-space character,
0 when it is empty or opens with a space. -/
def headDelta (t : List Char) : Int :=
  match t.head? with
  | none => 0
  | some d => if d = CHAR_SPACE then 0 else 1

/-- Outcome of the registry scan at the first matching entry: `CLI_FALSE`
exactly when the entry declares a non-negative arity different from the
tokenizer's count. -/
def arityOutcome (line : List Char) (cmd : cli_command_definition_t) : Int :=
  if 0 ≤ cmd.expected_parameter_count then
    if cli_get_parameter_count (some line) ≠ cmd.expected_parameter_count then
      CLI_FALSE
    else CLI_PASS
  else CLI_PASS

/-- A registered command at slot 0 whose handler reports more output
pending (`CLI_TRUE`), used to exhibit the cursor overload of index 0. -/
def pendCommand : cli_command_definition_t :=
  ⟨"p".toList, [], HandlerTag.custom (fun _ _ => ("x".toList, CLI_TRUE)), -1⟩

/-- A second registered command whose handler completes immediately. -/
def secondCommand : cli_command_definition_t :=
  ⟨"q".toList, [], HandlerTag.custom (fun _ _ => ("y".toList, CLI_FALSE)), -1⟩

/-- Whether a handler pointer is one of the three built-in handlers. -/
def isBuiltinTag : HandlerTag → Bool
  | HandlerTag.custom _ => false
  | _ => true

/-- Whether the `n`-th parameter can be staged by the `set`/`get` handlers:
present and shorter than the 50-byte staging array. -/
def paramOk (line : List Char) (n : Int) : Bool :=
  match cli_get_parameter (some line) n with
  | some (_, l) => l < 50
  | none => false

/-! ## Sanity checks on concrete inputs -/

example : cli_get_parameter_count (some "cmd a b".toList) = 2 := by decide
example : cli_get_parameter_count (some "cmd".toList) = 0 := by decide
example : cli_get_parameter_count (some "cmd   ".toList) = 0 := by decide
example : cli_get_parameter_count (some " a".toList) = 1 := by decide

example : cli_get_parameter (some "set key value".toList) 1 =
    some ("key value".toList, 3) := by decide
example : cli_get_parameter (some "set key value".toList) 2 =
    some ("value".toList, 5) := by decide
example : cli_get_parameter (some "set key value".toList) 3 = none := by decide
example : cli_get_parameter (some "set key value".toList) 0 = none := by decide

example :
    cstring (cli_process_command builtinRegistry "set a b".toList 64 0).1 =
      "Set a = b\r\n".toList := by decide

example :
    (cli_process_command builtinRegistry "frobnicate".toList 64 0).2.2 = 3 := by
  decide

example : lineWords "cmd a b".toList = ["cmd".toList, "a".toList, "b".toList] := by
  decide
example : lineWords "  a   bc ".toList = ["a".toList, "bc".toList] := by decide

theorem splitSp_ne_nil (t : List Char) : splitSp t ≠ [] := by
  cases t with
  | nil => simp [splitSp]
  | cons c rest =>
      simp only [splitSp]
      cases h : splitSp rest with
      | nil => exact absurd h (splitSp_ne_nil rest)
      | cons w ws => simp only [h]; split <;> simp

theorem lineWords_space_cons (t : List Char) :
    lineWords (CHAR_SPACE :: t) = lineWords t := by
  simp only [lineWords, splitSp]
  cases h : splitSp t with
  | nil => exact absurd h (splitSp_ne_nil t)
  | cons w ws => simp [List.filter]

theorem headDelta_nil : headDelta [] = 0 := rfl

theorem headDelta_cons (d : Char) (t : List Char) :
    headDelta (d :: t) = if d = CHAR_SPACE then 0 else 1 := rfl

theorem isTermChar_space : isTermChar CHAR_SPACE = false := by decide

theorem lineWords_word_cons (c : Char) (hc : ¬ c = CHAR_SPACE) (t : List Char) :
    ((lineWords (c :: t)).length : Int) = (lineWords t).length + 1 - headDelta t := by
  cases t with
  | nil => simp [lineWords, splitSp, hc, List.filter, headDelta_nil]
  | cons d rest =>
      cases h : splitSp rest with
      | nil => exact absurd h (splitSp_ne_nil rest)
      | cons w' ws' =>
          by_cases hd : d = CHAR_SPACE
          · simp [lineWords, splitSp, h, hc, hd, List.filter, headDelta_cons]
          · simp [lineWords, splitSp, h, hc, hd, List.filter, headDelta_cons]

theorem lineWords_pos (c : Char) (hc : ¬ c = CHAR_SPACE) (t : List Char) :
    0 < (lineWords (c :: t)).length := by
  cases h : splitSp t with
  | nil => exact absurd h (splitSp_ne_nil t)
  | cons w ws => simp [lineWords, splitSp, h, hc, List.filter]

/-- Running the counting loop on a line is the same as running it on the
line truncated at its first terminator: the loop never looks past NUL, CR
or LF. -/
theorem countLoop_trunc (s : List Char) (cnt : Int) (prev : Bool) :
    cli_get_parameter_count_loop s cnt prev =
      cli_get_parameter_count_loop (truncLine s) cnt prev := by
  induction s generalizing cnt prev with
  | nil => rfl
  | cons c rest ih =>
      by_cases hterm : isTermChar c
      · simp [cli_get_parameter_count_loop, truncLine, List.takeWhile_cons, hterm]
      · have hterm' : isTermChar c = false := by simpa using hterm
        by_cases hsp : c = CHAR_SPACE
        · subst hsp
          cases prev with
          | true =>
              simp only [cli_get_parameter_count_loop, isTermChar_space,
                Bool.false_eq_true, if_false, if_pos rfl, if_true, truncLine,
                List.takeWhile_cons, Bool.not_false]
              exact ih cnt true
          | false =>
              simp only [cli_get_parameter_count_loop, isTermChar_space,
                Bool.false_eq_true, if_false, if_pos rfl, if_true, truncLine,
                List.takeWhile_cons, Bool.not_false]
              exact ih (cnt + 1) true
        · simp only [cli_get_parameter_count_loop, hterm', Bool.false_eq_true,
            if_false, if_neg hsp, truncLine, List.takeWhile_cons, Bool.not_false]
          exact ih cnt false

/-- On a terminator-free list the counting loop computes the number of
whitespace-delimited words, corrected by the starting flag and by the first
character: started with `is_prev_space = true` it yields one less than the
word count; started with `false` it yields the word count, minus one when
the list opens with a word character. -/
theorem countLoop_words (t : List Char) (ht : ∀ c ∈ t, isTermChar c = false) :
    ∀ cnt : Int,
      cli_get_parameter_count_loop t cnt true =
          cnt + (lineWords t).length - 1 ∧
      cli_get_parameter_count_loop t cnt false =
          cnt + (lineWords t).length - headDelta t := by
  induction t with
  | nil =>
      intro cnt
      simp [cli_get_parameter_count_loop, lineWords, splitSp, headDelta_nil,
        List.filter]
  | cons c rest ih =>
      intro cnt
      have hterm : isTermChar c = false := ht c (List.mem_cons_self c rest)
      have hrest : ∀ d ∈ rest, isTermChar d = false :=
        fun d hd => ht d (List.mem_cons_of_mem c hd)
      by_cases hsp : c = CHAR_SPACE
      · subst hsp
        have hW : lineWords (CHAR_SPACE :: rest) = lineWords rest :=
          lineWords_space_cons rest
        constructor
        · have h1 := (ih hrest cnt).1
          simp only [cli_get_parameter_count_loop, isTermChar_space,
            Bool.false_eq_true, if_false, if_pos rfl, if_true, hW]
          exact h1
        · have h1 := (ih hrest (cnt + 1)).1
          simp only [cli_get_parameter_count_loop, isTermChar_space,
            Bool.false_eq_true, if_false, if_pos rfl, if_true, hW,
            headDelta_cons]
          rw [h1]
          simp
          omega
      · have hkey := lineWords_word_cons c hsp rest
        have hloop : ∀ prev : Bool,
            cli_get_parameter_count_loop (c :: rest) cnt prev =
              cli_get_parameter_count_loop rest cnt false := by
          intro prev
          simp [cli_get_parameter_count_loop, hterm, hsp]
        have h2 := (ih hrest cnt).2
        constructor
        · rw [hloop true, h2]
          omega
        · rw [hloop false, h2, headDelta_cons, if_neg hsp]
          omega

theorem truncLine_term_free (s : List Char) :
    ∀ c ∈ truncLine s, isTermChar c = false := by
  intro c hc
  have := List.mem_takeWhile_imp hc
  simpa using this

/-- Function `cli_get_parameter_count` computed through the declarative word split:
on a line that does not begin with a space it returns one less than the
number of whitespace-delimited words before the first terminator (0 when
there are no words at all). -/
theorem count_eq_words (line : List Char) (h : line.head? ≠ some CHAR_SPACE) :
    cli_get_parameter_count (some line) =
      max (((lineWords (truncLine line)).length : Int) - 1) 0 := by
  have htr := countLoop_trunc line 0 false
  have hw := (countLoop_words (truncLine line) (truncLine_term_free line) 0).2
  show cli_get_parameter_count_loop line 0 false = _
  rw [htr, hw]
  cases ht : truncLine line with
  | nil => simp [ht, lineWords, splitSp, List.filter, headDelta_nil]
  | cons d rest =>
      have hd : line.head? = some d := by
        cases line with
        | nil => simp [truncLine] at ht
        | cons a l' =>
            simp only [truncLine, List.takeWhile_cons] at ht
            by_cases ha : isTermChar a
            · simp [ha] at ht
            · have ha' : (!isTermChar a) = true := by simpa using ha
              rw [if_pos ha'] at ht
              simp [List.cons.injEq] at ht
              simp [ht.1]
      have hdsp : ¬ d = CHAR_SPACE := by
        intro hcontra
        exact h (by rw [hd, hcontra])
      have hpos := lineWords_pos d hdsp rest
      rw [headDelta_cons, if_neg hdsp]
      omega

/-- The registry scan always leaves a non-negative parameter count:
the final decrement can only fire after an increment. -/
theorem countLoop_nonneg (t : List Char) :
    ∀ (cnt : Int) (prev : Bool), (prev = true → 1 ≤ cnt) → 0 ≤ cnt →
      0 ≤ cli_get_parameter_count_loop t cnt prev := by
  induction t with
  | nil =>
      intro cnt prev h1 h2
      cases prev with
      | true =>
          have h3 := h1 rfl
          simp [cli_get_parameter_count_loop]; omega
      | false => simpa [cli_get_parameter_count_loop] using h2
  | cons c rest ih =>
      intro cnt prev h1 h2
      by_cases hterm : isTermChar c
      · cases prev with
        | true =>
            have h3 := h1 rfl
            simp [cli_get_parameter_count_loop, hterm]; omega
        | false => simpa [cli_get_parameter_count_loop, hterm] using h2
      · have hterm' : isTermChar c = false := by simpa using hterm
        by_cases hsp : c = CHAR_SPACE
        · cases prev with
          | true =>
              simp only [cli_get_parameter_count_loop, hterm',
                Bool.false_eq_true, if_false, if_pos hsp, if_true]
              exact ih cnt true h1 h2
          | false =>
              simp only [cli_get_parameter_count_loop, hterm',
                Bool.false_eq_true, if_false, if_pos hsp, if_true]
              exact ih (cnt + 1) true (fun _ => by omega) (by omega)
        · simp only [cli_get_parameter_count_loop, hterm', Bool.false_eq_true,
            if_false, if_neg hsp]
          exact ih cnt false (fun hcontra => by simp at hcontra) h2

/-- C7: `cli_get_parameter_count` scans only up to the first NUL, CR or LF,
collapses runs of consecutive spaces, does not count a trailing empty word,
and on a line that begins with its command word returns the number of
whitespace-delimited words after that first word; in particular
`"cmd a b"` counts 2, `"cmd"` counts 0 and `"cmd   "` counts 0. -/
theorem C7_parameter_count (line : List Char)
    (h : line.head? ≠ some CHAR_SPACE) :
    (∀ l2 : List Char, cli_get_parameter_count (some l2) =
        cli_get_parameter_count (some (truncLine l2))) ∧
    cli_get_parameter_count (some line) =
      max (((lineWords (truncLine line)).length : Int) - 1) 0 ∧
    cli_get_parameter_count (some "cmd a b".toList) = 2 ∧
    cli_get_parameter_count (some "cmd".toList) = 0 ∧
    cli_get_parameter_count (some "cmd   ".toList) = 0 := by
  refine ⟨fun l2 => countLoop_trunc l2 0 false, count_eq_words line h,
    by decide, by decide, by decide⟩

/-- Witness for C7 at the concrete line `"cmd a b"`. -/
theorem C7_parameter_count_witness :
    ("cmd a b".toList.head? ≠ some CHAR_SPACE) ∧
    cli_get_parameter_count (some "cmd a b".toList) =
      max (((lineWords (truncLine "cmd a b".toList)).length : Int) - 1) 0 :=
  ⟨by decide, (C7_parameter_count "cmd a b".toList (by decide)).2.1⟩

/-- C10: `cli_get_parameter_count` never returns a negative value, and a
NULL input returns 0; the dispatcher's arity comparison therefore never sees
a negative actual count. -/
theorem C10_count_nonneg :
    cli_get_parameter_count none = 0 ∧
    ∀ line : List Char, 0 ≤ cli_get_parameter_count (some line) :=
  ⟨rfl, fun line =>
    countLoop_nonneg line 0 false (fun hcontra => by simp at hcontra) le_rfl⟩

/-! ## Relating `cli_get_parameter` to the declarative word split -/

theorem dropWhile_head_false (p : Char → Bool) (s : List Char) :
    ∀ d, (s.dropWhile p).head? = some d → p d = false := by
  induction s with
  | nil => intro d hd; simp at hd
  | cons c rest ih =>
      intro d hd
      by_cases hc : p c
      · rw [List.dropWhile_cons, if_pos hc] at hd
        exact ih d hd
      · rw [List.dropWhile_cons, if_neg hc] at hd
        simp at hd
        subst hd
        simpa using hc

theorem dropWhile_of_head_false (p : Char → Bool) (s : List Char)
    (h : ∀ c, s.head? = some c → p c = false) : s.dropWhile p = s := by
  cases s with
  | nil => rfl
  | cons c rest => rw [List.dropWhile_cons, if_neg (by simp [h c rfl])]

theorem truncLine_nil_of_term (s : List Char)
    (h : isTermChar (headChar s) = true) : truncLine s = [] := by
  cases s with
  | nil => rfl
  | cons c rest =>
      have : isTermChar c = true := h
      simp [truncLine, List.takeWhile_cons, this]

theorem char_trichotomy (c : Char) :
    isTermChar c = true ∨ c = CHAR_SPACE ∨ isWordChar c = true := by
  by_cases h1 : isTermChar c
  · exact Or.inl h1
  · by_cases h2 : c = CHAR_SPACE
    · exact Or.inr (Or.inl h2)
    · exact Or.inr (Or.inr (by simp [isWordChar, h1, h2]))

theorem isWordChar_not_term (c : Char) (h : isWordChar c = true) :
    isTermChar c = false := by
  by_cases ht : isTermChar c
  · exact absurd h (by simp [isWordChar, ht])
  · simpa using ht

theorem isWordChar_not_space (c : Char) (h : isWordChar c = true) :
    ¬ c = CHAR_SPACE := by
  intro hc
  subst hc
  exact absurd h (by decide)

theorem isTermChar_not_space (c : Char) (h : isTermChar c = true) :
    ¬ c = CHAR_SPACE := by
  intro hc
  subst hc
  exact absurd h (by decide)

theorem truncLine_append_word (w r : List Char)
    (hw : ∀ c ∈ w, isWordChar c = true) :
    truncLine (w ++ r) = w ++ truncLine r := by
  induction w with
  | nil => rfl
  | cons c w' ih =>
      have hc : isWordChar c = true := hw c (List.mem_cons_self c w')
      have hterm : isTermChar c = false := isWordChar_not_term c hc
      have ih' := ih (fun d hd => hw d (List.mem_cons_of_mem c hd))
      simp only [List.cons_append, truncLine, List.takeWhile_cons, hterm,
        Bool.not_false, if_true]
      exact congrArg (c :: ·) ih'

theorem splitSp_append (w x w0 : List Char) (ws0 : List (List Char))
    (hw : ∀ c ∈ w, ¬ c = CHAR_SPACE) (h : splitSp x = w0 :: ws0) :
    splitSp (w ++ x) = (w ++ w0) :: ws0 := by
  induction w with
  | nil => simpa using h
  | cons c w' ih =>
      have hc : ¬ c = CHAR_SPACE := hw c (List.mem_cons_self c w')
      have ih' := ih (fun d hd => hw d (List.mem_cons_of_mem c hd))
      simp [List.cons_append, splitSp, List.append_eq, ih', hc]

theorem lineWords_block (w x : List Char) (hw : w ≠ [])
    (hwc : ∀ c ∈ w, ¬ c = CHAR_SPACE)
    (hx : x = [] ∨ x.head? = some CHAR_SPACE) :
    lineWords (w ++ x) = w :: lineWords x := by
  have hwe : w.isEmpty = false := by
    cases w with
    | nil => exact absurd rfl hw
    | cons a b => rfl
  rcases hx with hx | hx
  · subst hx
    have h := splitSp_append w [] [] [] hwc rfl
    simp only [List.append_nil] at h
    simp [lineWords, h, List.filter, hwe, splitSp]
  · cases x with
    | nil => simp at hx
    | cons d x' =>
        have hd : d = CHAR_SPACE := by simpa using hx
        subst hd
        cases hx' : splitSp x' with
        | nil => exact absurd hx' (splitSp_ne_nil x')
        | cons w1 ws1 =>
            have hsx : splitSp (CHAR_SPACE :: x') = [] :: w1 :: ws1 := by
              simp [splitSp, hx']
            have h := splitSp_append w (CHAR_SPACE :: x') [] (w1 :: ws1) hwc hsx
            simp only [List.append_nil] at h
            simp [lineWords, h, hsx, List.filter, hwe]

theorem lineWords_truncLine_skipSpaces (r : List Char) :
    lineWords (truncLine r) = lineWords (truncLine (skipSpaces r)) := by
  induction r with
  | nil => rfl
  | cons c rest ih =>
      by_cases hc : c = CHAR_SPACE
      · subst hc
        have h1 : skipSpaces (CHAR_SPACE :: rest) = skipSpaces rest := by
          simp [skipSpaces, List.dropWhile_cons]
        have h2 : truncLine (CHAR_SPACE :: rest) = CHAR_SPACE :: truncLine rest := by
          simp [truncLine, List.takeWhile_cons, isTermChar_space]
        rw [h2, h1, lineWords_space_cons, ih]
      · rw [show skipSpaces (c :: rest) = c :: rest from
          dropWhile_of_head_false _ _ (fun d hd => by
            simp at hd; subst hd; simpa using hc)]

theorem take_takeWhile_length (p : Char → Bool) (s : List Char) :
    s.take ((s.takeWhile p).length) = s.takeWhile p := by
  induction s with
  | nil => rfl
  | cons c rest ih =>
      by_cases hc : p c
      · simp [List.takeWhile_cons, hc, List.take_succ_cons, ih]
      · simp [List.takeWhile_cons, hc]

/-- Core of the walker iteration lemma: a nonempty word followed by a rest
not opening with a word character splits off as the first word after
truncation, and what follows is governed by the rest after its spaces. -/
theorem lineWords_step_core (w r : List Char) (hwne : w ≠ [])
    (hwc : ∀ c ∈ w, isWordChar c = true)
    (hr : ∀ d, r.head? = some d → isWordChar d = false) :
    lineWords (truncLine (w ++ r)) = w :: lineWords (truncLine (skipSpaces r)) := by
  have hwsp : ∀ c ∈ w, ¬ c = CHAR_SPACE := fun c hc =>
    isWordChar_not_space c (hwc c hc)
  rw [truncLine_append_word w r hwc]
  cases r with
  | nil =>
      rw [show skipSpaces ([] : List Char) = [] from rfl]
      exact lineWords_block w (truncLine []) hwne hwsp (Or.inl rfl)
  | cons d r' =>
      have hdw : isWordChar d = false := hr d rfl
      rcases char_trichotomy d with hdt | hds | hdword
      · have htrr : truncLine (d :: r') = [] :=
          truncLine_nil_of_term (d :: r') hdt
        have hss : skipSpaces (d :: r') = d :: r' :=
          dropWhile_of_head_false _ _ (fun c hc => by
            simp at hc; subst hc
            simp [isTermChar_not_space d hdt])
        rw [htrr, hss, htrr]
        exact lineWords_block w [] hwne hwsp (Or.inl rfl)
      · subst hds
        have htrr : truncLine (CHAR_SPACE :: r') = CHAR_SPACE :: truncLine r' := by
          simp [truncLine, List.takeWhile_cons, isTermChar_space]
        rw [lineWords_block w (truncLine (CHAR_SPACE :: r')) hwne hwsp
          (Or.inr (by rw [htrr]; rfl))]
        rw [lineWords_truncLine_skipSpaces (CHAR_SPACE :: r')]
      · exact absurd hdword (by simp [hdw])

/-- One iteration of the parameter walker, seen through the word split: when
the line starts with a word character, its words are its leading word
followed by the words of the line after the word-and-space skip. -/
theorem lineWords_truncLine_step (s : List Char)
    (h : isWordChar (headChar s) = true) :
    lineWords (truncLine s) =
      (s.takeWhile isWordChar) ::
        lineWords (truncLine (skipSpaces (skipWord s))) := by
  have hs : s.takeWhile isWordChar ++ s.dropWhile isWordChar = s :=
    List.takeWhile_append_dropWhile isWordChar s
  have hwne : s.takeWhile isWordChar ≠ [] := by
    cases s with
    | nil => exact absurd h (by decide)
    | cons c rest =>
        have hc : isWordChar c = true := h
        simp [List.takeWhile_cons, hc]
  have hcore := lineWords_step_core (s.takeWhile isWordChar)
    (s.dropWhile isWordChar) hwne
    (fun c hc => List.mem_takeWhile_imp hc)
    (fun d hd => dropWhile_head_false _ s d hd)
  rw [hs] at hcore
  exact hcore

theorem lineWords_nil : lineWords ([] : List Char) = [] := rfl

theorem paramLoop_eq (s : List Char) (n : Nat) :
    cli_get_parameter_loop s n =
      (let s2 := skipSpaces (skipWord s)
       if isTermChar (headChar s2) then none
       else
         match n with
         | 0 => none
         | 1 =>
             let len := (s2.takeWhile isWordChar).length
             if len = 0 then none else some (s2, (len : Int))
         | Nat.succ (Nat.succ m) => cli_get_parameter_loop s2 (Nat.succ m)) := by
  rw [cli_get_parameter_loop.eq_def]

theorem head_space_contra (s : List Char) (hhead : s.head? ≠ some CHAR_SPACE)
    (hS : headChar s = CHAR_SPACE) : False := by
  cases s with
  | nil => exact absurd hS (by decide)
  | cons c rest =>
      have hc : c = CHAR_SPACE := hS
      exact hhead (by rw [List.head?_cons, hc])

theorem skip_id_of_term (s : List Char) (hT : isTermChar (headChar s) = true) :
    skipSpaces (skipWord s) = s := by
  cases s with
  | nil => rfl
  | cons a rest =>
      have hTa : isTermChar a = true := hT
      have hwa : isWordChar a = false := by simp [isWordChar, hTa]
      have h1 : skipWord (a :: rest) = a :: rest := by
        simp [skipWord, List.dropWhile_cons, hwa]
      rw [h1]
      simp [skipSpaces, List.dropWhile_cons, isTermChar_not_space a hTa]

theorem skipSpaces_head_not_space (t : List Char) (d : Char)
    (h : (skipSpaces t).head? = some d) : ¬ d = CHAR_SPACE := by
  have h' : (t.dropWhile (fun c => c = CHAR_SPACE)).head? = some d := h
  have := dropWhile_head_false (fun c => c = CHAR_SPACE) t d h'
  simpa using this

/-- The parameter walker computed through the declarative word split: on a
line that does not begin with a space, looking for the `n`-th parameter
(`n ≥ 1`) yields exactly word number `n` of the truncated line (word 0 being
the command token), the returned pointer-and-length pair denoting that word;
`none` exactly when the line has no word number `n`. -/
theorem paramLoop_words (n : Nat) (s : List Char)
    (hhead : s.head? ≠ some CHAR_SPACE) (hn : 1 ≤ n) :
    (cli_get_parameter_loop s n).map (fun pl => (pl.1.take pl.2.toNat, pl.2)) =
      ((lineWords (truncLine s)).get? n).map (fun w => (w, (w.length : Int))) := by
  induction n generalizing s with
  | zero => omega
  | succ m ih =>
      by_cases hterm2 : isTermChar (headChar (skipSpaces (skipWord s)))
      · -- the walker hits a terminator: no such parameter
        have hnone : cli_get_parameter_loop s (Nat.succ m) = none := by
          rw [paramLoop_eq]
          simp only [if_pos hterm2]
        rw [hnone]
        rcases char_trichotomy (headChar s) with hT | hS | hW
        · rw [truncLine_nil_of_term s hT, lineWords_nil]
          simp
        · exact absurd hS (fun h => head_space_contra s hhead h)
        · rw [lineWords_truncLine_step s hW,
            truncLine_nil_of_term _ hterm2, lineWords_nil]
          cases m <;> simp
      · -- the walker found a word character
        obtain ⟨d, s2', hds2⟩ : ∃ d s2', skipSpaces (skipWord s) = d :: s2' := by
          cases hx : skipSpaces (skipWord s) with
          | nil =>
              rw [hx] at hterm2
              exact absurd (by decide : isTermChar (headChar ([] : List Char)) = true)
                hterm2
          | cons a b => exact ⟨a, b, rfl⟩
        have hd_nspace : ¬ d = CHAR_SPACE :=
          skipSpaces_head_not_space (skipWord s) d (by rw [hds2]; rfl)
        have hd_nterm : isTermChar d = false := by
          rw [hds2] at hterm2
          simpa [headChar] using hterm2
        have hd_word : isWordChar d = true := by
          simp [isWordChar, hd_nterm, hd_nspace]
        have hsW : isWordChar (headChar s) = true := by
          rcases char_trichotomy (headChar s) with hT | hS | hW
          · exfalso
            rw [skip_id_of_term s hT] at hds2
            rw [hds2] at hT
            exact absurd (show isTermChar d = true from hT) (by simp [hd_nterm])
          · exact absurd hS (fun h => head_space_contra s hhead h)
          · exact hW
        have hstep := lineWords_truncLine_step s hsW
        have hs2W : isWordChar (headChar (skipSpaces (skipWord s))) = true := by
          rw [hds2]; exact hd_word
        cases m with
        | zero =>
            have hstep2 := lineWords_truncLine_step _ hs2W
            have hlen : ((skipSpaces (skipWord s)).takeWhile isWordChar).length ≠ 0 := by
              rw [hds2, List.takeWhile_cons, if_pos hd_word]
              simp
            rw [paramLoop_eq]
            simp only [if_neg hterm2, hstep, hstep2, List.get?_cons_succ,
              List.get?_cons_zero, if_neg hlen, Option.map_some']
            simp [take_takeWhile_length, Int.toNat_ofNat]
        | succ m' =>
            have ih' := ih (skipSpaces (skipWord s))
              (by rw [hds2]; simpa using hd_nspace) (by omega)
            have hrec : cli_get_parameter_loop s (Nat.succ (Nat.succ m')) =
                cli_get_parameter_loop (skipSpaces (skipWord s)) (Nat.succ m') := by
              rw [paramLoop_eq]
              simp only [if_neg hterm2]
            rw [hrec, hstep, ih', List.get?_cons_succ]

/-- C8: `cli_get_parameter` with 1-based index `n` returns the pointer to the
start of the `n`-th word after the command token together with that word's
length (so the word at the returned pointer, cut at the returned length, is
word number `n` of the truncated line), and returns NULL when the line
terminates before `n` such words exist or the index is not positive; in
particular on `"set key value"` index 1 gives `"key"` (length 3), index 2
gives `"value"` (length 5) and index 3 gives NULL. -/
theorem C8_get_parameter (line : List Char) (n : Int)
    (h1 : 1 ≤ n) (h2 : line.head? ≠ some CHAR_SPACE) :
    (cli_get_parameter (some line) n).map
        (fun pl => (pl.1.take pl.2.toNat, pl.2)) =
      ((lineWords (truncLine line)).get? n.toNat).map
        (fun w => (w, (w.length : Int))) ∧
    (∀ (l2 : List Char) (m : Int), m ≤ 0 → cli_get_parameter (some l2) m = none) ∧
    cli_get_parameter (some "set key value".toList) 1 =
      some ("key value".toList, 3) ∧
    cli_get_parameter (some "set key value".toList) 2 =
      some ("value".toList, 5) ∧
    cli_get_parameter (some "set key value".toList) 3 = none := by
  refine ⟨?_, ?_, by decide, by decide, by decide⟩
  · have heq : cli_get_parameter (some line) n = cli_get_parameter_loop line n.toNat := by
      simp [cli_get_parameter, show ¬ n ≤ 0 by omega]
    rw [heq]
    exact paramLoop_words n.toNat line h2 (by omega)
  · intro l2 m hm
    simp [cli_get_parameter, hm]

/-- Witness for C8 at the concrete line `"set key value"`, index 1. -/
theorem C8_get_parameter_witness :
    ((1 : Int) ≤ 1 ∧ "set key value".toList.head? ≠ some CHAR_SPACE) ∧
    (cli_get_parameter (some "set key value".toList) 1).map
        (fun pl => (pl.1.take pl.2.toNat, pl.2)) =
      ((lineWords (truncLine "set key value".toList)).get? (1 : Int).toNat).map
        (fun w => (w, (w.length : Int))) :=
  ⟨⟨by decide, by decide⟩,
    (C8_get_parameter "set key value".toList 1 (by decide) (by decide)).1⟩

/-- C9: `cli_register_command` fails (returning `CLI_FALSE`) exactly when the
descriptor is NULL or the registry holds `CLI_MAX_COMMANDS` entries, in which
case the registry is unchanged; on success the descriptor is appended as the
next slot (preserving all earlier entries and their order, and incrementing
the count by one) and `CLI_TRUE` is returned. -/
theorem C9_register (registry : List cli_command_definition_t)
    (p : Option cli_command_definition_t)
    (h : registry.length ≤ CLI_MAX_COMMANDS) :
    ((cli_register_command registry p).2 = CLI_FALSE ↔
      (p = none ∨ registry.length = CLI_MAX_COMMANDS)) ∧
    ((cli_register_command registry p).2 = CLI_FALSE →
      (cli_register_command registry p).1 = registry) ∧
    (∀ cmd, p = some cmd → registry.length < CLI_MAX_COMMANDS →
      (cli_register_command registry p).2 = CLI_TRUE ∧
      (cli_register_command registry p).1 = registry ++ [cmd] ∧
      (cli_register_command registry p).1.length = registry.length + 1 ∧
      (cli_register_command registry p).1.take registry.length = registry) := by
  refine ⟨?_, ?_, ?_⟩
  · cases p with
    | none => simp [cli_register_command]
    | some cmd =>
        by_cases hlt : registry.length < CLI_MAX_COMMANDS
        · simp only [cli_register_command, if_pos hlt]
          constructor
          · intro hc; exact absurd hc (by simp [CLI_TRUE, CLI_FALSE])
          · intro hc
            rcases hc with hc | hc
            · exact absurd hc (by simp)
            · omega
        · simp only [cli_register_command, if_neg hlt]
          simp only [CLI_MAX_COMMANDS] at h hlt ⊢
          constructor
          · intro _; right; omega
          · intro _; trivial
  · cases p with
    | none => intro _; rfl
    | some cmd =>
        by_cases hlt : registry.length < CLI_MAX_COMMANDS
        · simp only [cli_register_command, if_pos hlt]
          intro hc; exact absurd hc (by simp [CLI_TRUE, CLI_FALSE])
        · simp only [cli_register_command, if_neg hlt]
          intro _; trivial

  · intro cmd hcmd hlt
    subst hcmd
    simp [cli_register_command, if_pos hlt, List.take_left]

/-- Witness for C9: registering a fourth command into the three-slot built-in
registry succeeds and appends it. -/
theorem C9_register_witness :
    builtinRegistry.length ≤ CLI_MAX_COMMANDS ∧
    (cli_register_command builtinRegistry (some g_set_command)).2 = CLI_TRUE ∧
    (cli_register_command builtinRegistry (some g_set_command)).1 =
      builtinRegistry ++ [g_set_command] := by
  have h := C9_register builtinRegistry (some g_set_command) (by decide)
  have h2 := h.2.2 g_set_command rfl (by decide)
  exact ⟨by decide, h2.1, h2.2.1⟩

/-! ## Dispatch scan lemmas -/

theorem cli_search_first (line : List Char) :
    ∀ (cmds : List cli_command_definition_t) (i : Nat)
      (cmd : cli_command_definition_t) (k : Int),
      cmds.get? i = some cmd → cmdMatches cmd.p_command line = true →
      (∀ j cmd2, j < i → cmds.get? j = some cmd2 →
        cmdMatches cmd2.p_command line = false) →
      cli_search line cmds k = (k + i, arityOutcome line cmd) := by
  intro cmds
  induction cmds with
  | nil => intro i cmd k hget; simp at hget
  | cons a rest ih =>
      intro i cmd k hget hmatch hfirst
      cases i with
      | zero =>
          simp only [List.get?_cons_zero, Option.some.injEq] at hget
          subst hget
          simp only [cli_search, if_pos hmatch, arityOutcome]
          split
          · split <;> simp
          · simp
      | succ i' =>
          have ha : cmdMatches a.p_command line = false :=
            hfirst 0 a (Nat.succ_pos i') rfl
          simp only [List.get?_cons_succ] at hget
          have ih' := ih i' cmd (k + 1) hget hmatch
            (fun j cmd2 hj hg => hfirst (j + 1) cmd2 (by omega)
              (by simpa using hg))
          simp only [cli_search, ha, Bool.false_eq_true, if_false]
          rw [ih']
          congr 1
          omega

theorem cli_search_no_match (line : List Char) :
    ∀ (cmds : List cli_command_definition_t) (k : Int),
      (∀ c ∈ cmds, cmdMatches c.p_command line = false) →
      cli_search line cmds k = (k + cmds.length, CLI_PASS) := by
  intro cmds
  induction cmds with
  | nil => intro k _; simp [cli_search]
  | cons a rest ih =>
      intro k hall
      have ha : cmdMatches a.p_command line = false :=
        hall a (List.mem_cons_self a rest)
      simp only [cli_search, ha, Bool.false_eq_true, if_false]
      rw [ih (k + 1) (fun c hc => hall c (List.mem_cons_of_mem a hc))]
      congr 1
      simp only [List.length_cons]
      omega

/-- C6: an entry matches exactly when the line's first `strlen(name)` bytes
equal the name and the byte immediately after is a space, NUL, CR or LF
(so `"sett"` does not match `"set"`); the registry is scanned in order and
the scan stops at the first matching entry, whatever later entries would
match. -/
theorem C6_match_rule (line : List Char) (cmds : List cli_command_definition_t)
    (i : Nat) (cmd : cli_command_definition_t)
    (hget : cmds.get? i = some cmd)
    (hmatch : cmdMatches cmd.p_command line = true)
    (hfirst : ∀ j cmd2, j < i → cmds.get? j = some cmd2 →
      cmdMatches cmd2.p_command line = false) :
    (cli_search line cmds 0).1 = (i : Int) ∧
    (∀ name l2 : List Char, cmdMatches name l2 = true ↔
      (l2.take name.length = name ∧
        (charAt l2 name.length = CHAR_SPACE ∨ charAt l2 name.length = CHAR_NULL ∨
         charAt l2 name.length = CHAR_CARRIAGE_RET ∨
         charAt l2 name.length = CHAR_NEWLINE))) ∧
    cmdMatches "set".toList "sett".toList = false := by
  refine ⟨?_, ?_, by decide⟩
  · rw [cli_search_first line cmds i cmd 0 hget hmatch hfirst]
    simp
  · intro name l2
    simp only [cmdMatches, Bool.and_eq_true, Bool.or_eq_true, decide_eq_true_eq,
      beq_iff_eq]
    tauto

/-- Witness for C6: with two identical `"set"` entries registered after
`help`, the line `"set a b"` is matched at the earlier one, index 1. -/
theorem C6_match_rule_witness :
    ([g_help_command, g_set_command, g_set_command].get? 1 = some g_set_command ∧
      cmdMatches g_set_command.p_command "set a b".toList = true) ∧
    (cli_search "set a b".toList
      [g_help_command, g_set_command, g_set_command] 0).1 = (1 : Int) :=
  ⟨⟨rfl, by decide⟩,
    (C6_match_rule "set a b".toList [g_help_command, g_set_command, g_set_command]
      1 g_set_command rfl (by decide)
      (fun j cmd2 hj hg => by
        interval_cases j
        · simp only [List.get?_cons_zero, Option.some.injEq] at hg
          subst hg
          decide)).1⟩

/-! ## Buffer image lemmas -/

theorem strncpy_model_length (src : List Char) (n : Nat) :
    (strncpy_model src n).length = n := by
  simp [strncpy_model]
  omega

theorem takeWhile_append_all (p : Char → Bool) (l1 l2 : List Char)
    (h : ∀ c ∈ l1, p c = true) :
    (l1 ++ l2).takeWhile p = l1 ++ l2.takeWhile p := by
  induction l1 with
  | nil => rfl
  | cons c rest ih =>
      have hc : p c = true := h c (List.mem_cons_self c rest)
      simp only [List.cons_append, List.takeWhile_cons, hc, if_true]
      exact congrArg (c :: ·) (ih (fun d hd => h d (List.mem_cons_of_mem c hd)))

theorem cstring_strncpy (msg : List Char) (cap : Nat)
    (hlen : msg.length < cap) (hnul : ∀ c ∈ msg, ¬ c = CHAR_NULL) :
    cstring (strncpy_model msg cap) = msg := by
  have htake : msg.take cap = msg := List.take_of_length_le (by omega)
  unfold cstring strncpy_model
  rw [htake, takeWhile_append_all _ msg _ (fun c hc => by simp [hnul c hc])]
  obtain ⟨k, hk⟩ : ∃ k, cap - msg.length = k + 1 :=
    ⟨cap - msg.length - 1, by omega⟩
  rw [hk]
  simp [List.replicate_succ]

/-- C5: when the scan from Idle stops at a matching command whose declared
arity is non-negative and differs from the tokenizer's count over the line,
the dispatcher writes `CLI_MSG_INCORRECT_PARAMS` (via `strncpy`, verbatim
whenever the capacity allows) without invoking any handler, and returns
`CLI_FALSE`; when no entry matches it writes `CLI_MSG_NOT_RECOGNIZED` and
returns `CLI_FALSE`. -/
theorem C5_error_messages (cmds : List cli_command_definition_t)
    (line : List Char) (cap : Nat) (i : Nat) (cmd : cli_command_definition_t)
    (hget : cmds.get? i = some cmd)
    (hmatch : cmdMatches cmd.p_command line = true)
    (hfirst : ∀ j cmd2, j < i → cmds.get? j = some cmd2 →
      cmdMatches cmd2.p_command line = false)
    (harity : 0 ≤ cmd.expected_parameter_count)
    (hmis : cli_get_parameter_count (some line) ≠ cmd.expected_parameter_count) :
    cli_process_command cmds line cap 0 =
      (strncpy_model CLI_MSG_INCORRECT_PARAMS cap, CLI_FALSE, (i : Int)) ∧
    (CLI_MSG_INCORRECT_PARAMS.length < cap →
      cstring (cli_process_command cmds line cap 0).1 = CLI_MSG_INCORRECT_PARAMS) ∧
    (∀ (cmds2 : List cli_command_definition_t) (line2 : List Char),
      (∀ c ∈ cmds2, cmdMatches c.p_command line2 = false) →
      cli_process_command cmds2 line2 cap 0 =
        (strncpy_model CLI_MSG_NOT_RECOGNIZED cap, CLI_FALSE,
          (cmds2.length : Int)) ∧
      (CLI_MSG_NOT_RECOGNIZED.length < cap →
        cstring (cli_process_command cmds2 line2 cap 0).1 =
          CLI_MSG_NOT_RECOGNIZED)) := by
  have hout : arityOutcome line cmd = CLI_FALSE := by
    simp [arityOutcome, harity, hmis]
  have hsearch : cli_search line cmds 0 = ((i : Int), CLI_FALSE) := by
    rw [cli_search_first line cmds i cmd 0 hget hmatch hfirst, hout]
    simp
  have hproc : cli_process_command cmds line cap 0 =
      (strncpy_model CLI_MSG_INCORRECT_PARAMS cap, CLI_FALSE, (i : Int)) := by
    simp [cli_process_command, hsearch]
  refine ⟨hproc, ?_, ?_⟩
  · intro hcap
    rw [hproc]
    exact cstring_strncpy _ cap hcap (by decide)
  · intro cmds2 line2 hall
    have hsearch2 : cli_search line2 cmds2 0 =
        ((cmds2.length : Int), CLI_PASS) := by
      rw [cli_search_no_match line2 cmds2 0 hall]
      simp
    have hproc2 : cli_process_command cmds2 line2 cap 0 =
        (strncpy_model CLI_MSG_NOT_RECOGNIZED cap, CLI_FALSE,
          (cmds2.length : Int)) := by
      simp [cli_process_command, hsearch2, CLI_PASS, CLI_FALSE]
    refine ⟨hproc2, fun hcap => ?_⟩
    rw [hproc2]
    exact cstring_strncpy _ cap hcap (by decide)

/-- Witness for C5: `"set a"` (declared arity 2, actual 1) and the
unregistered `"frobnicate"` against the built-in registry. -/
theorem C5_error_messages_witness :
    (builtinRegistry.get? 1 = some g_set_command ∧
      cmdMatches g_set_command.p_command "set a".toList = true ∧
      (0 : Int) ≤ g_set_command.expected_parameter_count ∧
      cli_get_parameter_count (some "set a".toList) ≠
        g_set_command.expected_parameter_count) ∧
    cli_process_command builtinRegistry "set a".toList 70 0 =
      (strncpy_model CLI_MSG_INCORRECT_PARAMS 70, CLI_FALSE, (1 : Int)) ∧
    cli_process_command builtinRegistry "frobnicate".toList 70 0 =
      (strncpy_model CLI_MSG_NOT_RECOGNIZED 70, CLI_FALSE,
        (builtinRegistry.length : Int)) := by
  have h := C5_error_messages builtinRegistry "set a".toList 70 1 g_set_command
    rfl (by decide)
    (fun j cmd2 hj hg => by
      interval_cases j
      simp only [builtinRegistry, List.get?_cons_zero, Option.some.injEq] at hg
      subst hg
      decide)
    (by decide) (by decide)
  exact ⟨⟨rfl, by decide, by decide, by decide⟩, h.1,
    (h.2.2 builtinRegistry "frobnicate".toList (by decide)).1⟩

/-! ## Continuation protocol and the dispatch cursor -/

/-- Counterexample to C3 as stated: when the handler at registry slot 0
returns more-output-pending, the cursor it leaves (0) is the Idle value, and
the next invocation does not skip matching and does not re-invoke that
handler: on the line `"q"` it matches and runs the other command instead
(returning that handler's output and `CLI_FALSE`, where re-invoking slot 0's
handler would return `"x"` and `CLI_TRUE`). -/
theorem C3_slot0_counterexample :
    (cli_process_command [pendCommand, secondCommand] "p".toList 30 0).2.1 =
      CLI_TRUE ∧
    (cli_process_command [pendCommand, secondCommand] "p".toList 30 0).2.2 = 0 ∧
    cli_process_command [pendCommand, secondCommand] "q".toList 30
        (cli_process_command [pendCommand, secondCommand] "p".toList 30 0).2.2 =
      ("y".toList, CLI_FALSE, 0) ∧
    runHandler [pendCommand, secondCommand] pendCommand.p_command_interpreter 30
        "q".toList = ("x".toList, CLI_TRUE) := by
  refine ⟨?_, ?_, ?_, rfl⟩ <;> decide

/-- C3 (amended): for a cursor pointing at a registry slot `i ≥ 1`, a call
to `cli_process_command` skips registry matching and arity checking entirely
and re-invokes slot `i`'s handler directly; the handler's flag is returned,
and the cursor is reset to 0 exactly when that flag is `CLI_FALSE`,
otherwise it stays at `i`. -/
theorem C3_continuation (cmds : List cli_command_definition_t)
    (line : List Char) (cap : Nat) (i : Nat) (h1 : 1 ≤ i)
    (h2 : i < cmds.length) :
    cli_process_command cmds line cap (i : Int) =
      ((runHandler cmds (cmds.getD i defaultCommand).p_command_interpreter
          cap line).1,
        (runHandler cmds (cmds.getD i defaultCommand).p_command_interpreter
          cap line).2,
        if (runHandler cmds (cmds.getD i defaultCommand).p_command_interpreter
            cap line).2 = CLI_FALSE
        then 0 else (i : Int)) := by
  have hne : ¬ ((i : Int) = 0) := by omega
  have hlt : ((i : Int)) < (cmds.length : Int) := by exact_mod_cast h2
  have hpne : ¬ (CLI_PASS = CLI_FALSE) := by decide
  simp only [cli_process_command, if_neg hne, if_neg hpne, if_pos hlt,
    Int.toNat_natCast]

/-- Witness for C3 at slot 1: with the registry `[help, p]` and cursor 1,
dispatching `"p"` re-invokes the pending handler directly and keeps the
cursor at 1. -/
theorem C3_continuation_witness :
    (1 ≤ 1 ∧ 1 < ([g_help_command, pendCommand] :
        List cli_command_definition_t).length) ∧
    cli_process_command [g_help_command, pendCommand] "p".toList 30 (1 : Int) =
      ("x".toList, CLI_TRUE, 1) := by
  refine ⟨⟨le_rfl, by decide⟩, ?_⟩
  have h := C3_continuation [g_help_command, pendCommand] "p".toList 30 1 le_rfl
    (by decide)
  simpa using h.trans (by decide)

/-- C1: the code does not reset the dispatch cursor on the
command-not-recognized and arity-mismatch paths, although both return
`CLI_FALSE`.  After dispatching the unregistered `"frobnicate"` against the
built-in registry the cursor is left at 3 (the registry count), so the next
call — here for the perfectly valid line `"help"` — skips the registry scan
and again reports command-not-recognized; after the arity-mismatched
`"set a"` the cursor is left at 1. -/
theorem C1_cursor_not_reset :
    (cli_process_command builtinRegistry "frobnicate".toList 64 0).2.1 =
      CLI_FALSE ∧
    (cli_process_command builtinRegistry "frobnicate".toList 64 0).2.2 = 3 ∧
    (cli_process_command builtinRegistry "help".toList 64
        (cli_process_command builtinRegistry "frobnicate".toList 64 0).2.2).1 =
      strncpy_model CLI_MSG_NOT_RECOGNIZED 64 ∧
    (cli_process_command builtinRegistry "set a".toList 64 0).2.1 = CLI_FALSE ∧
    (cli_process_command builtinRegistry "set a".toList 64 0).2.2 = 1 := by
  refine ⟨?_, ?_, ?_, ?_, ?_⟩ <;> decide

/-! ## Buffer capacity bounds -/

theorem writeImage_length (content : List Char) (n : Nat) :
    (writeImage content n).length = max content.length n := by
  simp [writeImage]
  omega

theorem cli_help_loop_le (cap : Nat) (cmds : List cli_command_definition_t) :
    ∀ content : List Char, content.length ≤ cap →
      (cli_help_loop cmds cap content).length ≤ cap := by
  induction cmds with
  | nil => intro content h; simpa [cli_help_loop] using h
  | cons cmd rest ih =>
      intro content h
      by_cases hg : content.length + cmd.p_command.length + 5 < cap
      · simp only [cli_help_loop, if_pos hg]
        apply ih
        simp only [List.length_append]
        have e1 : ("  ".toList).length = 2 := by decide
        have e2 : ("\r\n".toList).length = 2 := by decide
        omega
      · simp only [cli_help_loop, if_neg hg]
        exact ih content h

theorem help_image_le (registry : List cli_command_definition_t) (cap : Nat)
    (line : List Char) : (cli_help_interpreter registry cap line).1.length ≤ cap := by
  have hc0 : (CLI_MSG_HELP_HEADER.take cap).length ≤ cap := by
    simp [List.length_take]
  have hloop := cli_help_loop_le cap (registry.drop 1) _ hc0
  simp only [cli_help_interpreter, writeImage_length]
  omega

theorem take_toNat_le (s : List Char) (l : Int) (h : l < 50) :
    (s.take l.toNat).length ≤ 49 := by
  have := List.length_take l.toNat s
  omega

theorem set_image_le (cap : Nat) (line : List Char) (h : 108 ≤ cap) :
    (cli_set_interpreter cap line).1.length ≤ cap := by
  unfold cli_set_interpreter
  cases h1 : cli_get_parameter (some line) 1 with
  | none => simp [strncpy_model_length]
  | some pl =>
      obtain ⟨s1, l1⟩ := pl
      by_cases hl1 : l1 < 50
      · cases h2 : cli_get_parameter (some line) 2 with
        | none => simp [hl1, strncpy_model_length]
        | some pl2 =>
            obtain ⟨s2, l2⟩ := pl2
            by_cases hl2 : l2 < 50
            · simp only [if_pos hl1, if_pos hl2, writeImage_length,
                List.length_append]
              have e1 : ("Set ".toList).length = 4 := by decide
              have e2 : (" = ".toList).length = 3 := by decide
              have e3 : ("\r\n".toList).length = 2 := by decide
              have e4 : ([CHAR_NULL].length) = 1 := by decide
              have b1 := take_toNat_le s1 l1 hl1
              have b2 := take_toNat_le s2 l2 hl2
              omega
            · simp [hl1, hl2, strncpy_model_length]
      · simp [hl1, strncpy_model_length]

theorem get_image_le (cap : Nat) (line : List Char) (h : 108 ≤ cap) :
    (cli_get_interpreter cap line).1.length ≤ cap := by
  unfold cli_get_interpreter
  cases h1 : cli_get_parameter (some line) 1 with
  | none => simp [strncpy_model_length]
  | some pl =>
      obtain ⟨s1, l1⟩ := pl
      by_cases hl1 : l1 < 50
      · simp only [if_pos hl1, writeImage_length, List.length_append]
        have e1 : ("Get ".toList).length = 4 := by decide
        have e2 : (": [value not implemented]\r\n".toList).length = 27 := by decide
        have e3 : ([CHAR_NULL].length) = 1 := by decide
        have b1 := take_toNat_le s1 l1 hl1
        omega
      · simp [hl1, strncpy_model_length]

theorem getD_mem_or_default (cmds : List cli_command_definition_t) (n : Nat) :
    cmds.getD n defaultCommand ∈ cmds ∨
      cmds.getD n defaultCommand = defaultCommand := by
  rw [List.getD_eq_getElem?_getD]
  cases hx : cmds[n]? with
  | none => right; rfl
  | some c =>
      left
      simpa [hx] using List.getElem?_mem hx

/-- Counterexample to C2 as stated: the `set` handler's `sprintf` is not
bounded by the capacity, so with an 8-byte buffer the line `"set aa bb"`
makes it write 14 bytes. -/
theorem C2_overflow_counterexample :
    ¬ ((cli_set_interpreter 8 "set aa bb".toList).1.length ≤ 8) := by decide

/-- C2 (amended): provided the buffer capacity is at least 108 bytes (the
worst case of the `set` handler's formatted response, with both staged
parameters at their 49-character maximum), no write of the core exceeds the
capacity: the dispatcher's fixed messages, the help listing (which skips
entries that would not fit, however many commands are registered) and the
`set`/`get` handlers all leave a buffer image of at most `write_buffer_len`
bytes, for every line, cursor and registry of built-in handlers. -/
theorem C2_buffer_safety (cmds : List cli_command_definition_t)
    (line : List Char) (cap : Nat) (cursor : Int) (hcap : 108 ≤ cap)
    (hb : ∀ c ∈ cmds, isBuiltinTag c.p_command_interpreter = true) :
    (cli_process_command cmds line cap cursor).1.length ≤ cap ∧
    (∀ (registry : List cli_command_definition_t) (l2 : List Char),
      (cli_help_interpreter registry cap l2).1.length ≤ cap) ∧
    (cli_set_interpreter cap line).1.length ≤ cap ∧
    (cli_get_interpreter cap line).1.length ≤ cap := by
  have hrun : ∀ c : cli_command_definition_t, c ∈ cmds ∨ c = defaultCommand →
      (runHandler cmds c.p_command_interpreter cap line).1.length ≤ cap := by
    intro c hc
    rcases hc with hc | hc
    · have hbc := hb c hc
      cases htag : c.p_command_interpreter with
      | helpTag => simpa [runHandler] using help_image_le cmds cap line
      | setTag => simpa [runHandler] using set_image_le cap line hcap
      | getTag => simpa [runHandler] using get_image_le cap line hcap
      | custom f => rw [htag] at hbc; simp [isBuiltinTag] at hbc
    · rw [hc]
      simp [runHandler, defaultCommand]
  refine ⟨?_, fun registry l2 => help_image_le registry cap l2,
    set_image_le cap line hcap, get_image_le cap line hcap⟩
  simp only [cli_process_command]
  split
  · split
    · simp [strncpy_model_length]
    · split
      · exact hrun _ (getD_mem_or_default cmds _)
      · simp [strncpy_model_length]
  · split
    · simp [strncpy_model_length]
    · split
      · exact hrun _ (getD_mem_or_default cmds _)
      · simp [strncpy_model_length]

/-- Witness for C2 at the program's actual 512-byte buffer, built-in
registry and the line `"set a b"`. -/
theorem C2_buffer_safety_witness :
    (108 ≤ CLI_WRITE_BUFFER_SIZE ∧
      ∀ c ∈ builtinRegistry, isBuiltinTag c.p_command_interpreter = true) ∧
    (cli_process_command builtinRegistry "set a b".toList
      CLI_WRITE_BUFFER_SIZE 0).1.length ≤ CLI_WRITE_BUFFER_SIZE :=
  ⟨⟨by decide, by decide⟩,
    (C2_buffer_safety builtinRegistry "set a b".toList CLI_WRITE_BUFFER_SIZE 0
      (by decide) (by decide)).1⟩

/-! ## The set handler -/

theorem paramLoop_some : ∀ (m : Nat) (s0 s : List Char) (l : Int),
    cli_get_parameter_loop s0 m = some (s, l) →
    l = ((s.takeWhile isWordChar).length : Int) := by
  intro m
  induction m with
  | zero =>
      intro s0 s l h
      rw [paramLoop_eq] at h
      by_cases ht : isTermChar (headChar (skipSpaces (skipWord s0))) <;>
        simp [ht] at h
  | succ m ih =>
      intro s0 s l h
      rw [paramLoop_eq] at h
      by_cases ht : isTermChar (headChar (skipSpaces (skipWord s0)))
      · simp [ht] at h
      · cases m with
        | zero =>
            simp only [if_neg ht] at h
            by_cases hz :
                ((skipSpaces (skipWord s0)).takeWhile isWordChar).length = 0
            · simp [hz] at h
            · simp only [hz, Bool.false_eq_true, if_false, Option.some.injEq,
                Prod.mk.injEq] at h
              obtain ⟨hs, hl⟩ := h
              subst hs
              exact hl.symm
        | succ m' =>
            simp only [if_neg ht] at h
            exact ih _ s l h

theorem cli_get_parameter_some (line : List Char) (n : Int) (s : List Char)
    (l : Int) (h : cli_get_parameter (some line) n = some (s, l)) :
    l = ((s.takeWhile isWordChar).length : Int) := by
  unfold cli_get_parameter at h
  by_cases hn : n ≤ 0
  · simp [hn] at h
  · simp only [hn, Bool.false_eq_true, if_false, if_neg hn] at h
    exact paramLoop_some n.toNat line s l h

theorem param_take_eq_word (line : List Char) (n : Int) (s : List Char)
    (l : Int) (h : cli_get_parameter (some line) n = some (s, l)) :
    s.take l.toNat = s.takeWhile isWordChar := by
  rw [cli_get_parameter_some line n s l h, Int.toNat_natCast,
    take_takeWhile_length]

theorem isWordChar_ne_null (c : Char) (h : isWordChar c = true) :
    ¬ c = CHAR_NULL := by
  intro hc
  subst hc
  exact absurd h (by decide)

theorem cstring_writeImage_sentinel (content : List Char) (cap : Nat)
    (h : ∀ c ∈ content, ¬ c = CHAR_NULL) :
    cstring (writeImage (content ++ [CHAR_NULL]) cap) = content := by
  unfold cstring writeImage
  rw [List.append_assoc,
    takeWhile_append_all _ content _ (fun c hc => by simp [h c hc])]
  simp [List.takeWhile_cons]

/-- C4: the `set` handler extracts parameters 1 (key) and 2 (value); when
both are present and each fits the 50-byte staging array (length < 50,
i.e. neither exceeds the staging limit) the buffer holds exactly
`"Set <key> = <value>\r\n"`; otherwise it holds the missing-parameter
message (verbatim whenever the capacity allows); the handler always returns
`CLI_FALSE`, and dispatching `"set a b"` yields `"Set a = b\r\n"`. -/
theorem C4_set_handler (line : List Char) (cap : Nat) :
    ((paramOk line 1 && paramOk line 2) = false →
      (cli_set_interpreter cap line).1 =
        strncpy_model CLI_MSG_MISSING_PARAM cap ∧
      (CLI_MSG_MISSING_PARAM.length < cap →
        cstring (cli_set_interpreter cap line).1 = CLI_MSG_MISSING_PARAM)) ∧
    (∀ (s1 : List Char) (l1 : Int) (s2 : List Char) (l2 : Int),
      cli_get_parameter (some line) 1 = some (s1, l1) → l1 < 50 →
      cli_get_parameter (some line) 2 = some (s2, l2) → l2 < 50 →
      cstring (cli_set_interpreter cap line).1 =
        "Set ".toList ++ s1.take l1.toNat ++ " = ".toList ++
          s2.take l2.toNat ++ "\r\n".toList) ∧
    (cli_set_interpreter cap line).2 = CLI_FALSE ∧
    cstring (cli_process_command builtinRegistry "set a b".toList 64 0).1 =
      "Set a = b\r\n".toList := by
  refine ⟨?_, ?_, ?_, by decide⟩
  · intro hbad
    have hmain : (cli_set_interpreter cap line).1 =
        strncpy_model CLI_MSG_MISSING_PARAM cap := by
      unfold cli_set_interpreter
      cases hp1 : cli_get_parameter (some line) 1 with
      | none => rfl
      | some pl =>
          obtain ⟨s1, l1⟩ := pl
          by_cases hl1 : l1 < 50
          · cases hp2 : cli_get_parameter (some line) 2 with
            | none => simp [hl1]
            | some pl2 =>
                obtain ⟨s2, l2⟩ := pl2
                by_cases hl2 : l2 < 50
                · exfalso
                  simp [paramOk, hp1, hp2, hl1, hl2] at hbad
                · simp [hl1, hl2]
          · simp [hl1]
    exact ⟨hmain, fun hcap => by
      rw [hmain]; exact cstring_strncpy _ cap hcap (by decide)⟩
  · intro s1 l1 s2 l2 hp1 hl1 hp2 hl2
    have hw1 : ∀ c ∈ s1.take l1.toNat, isWordChar c = true := by
      rw [param_take_eq_word line 1 s1 l1 hp1]
      exact fun c hc => List.mem_takeWhile_imp hc
    have hw2 : ∀ c ∈ s2.take l2.toNat, isWordChar c = true := by
      rw [param_take_eq_word line 2 s2 l2 hp2]
      exact fun c hc => List.mem_takeWhile_imp hc
    have hset : cli_set_interpreter cap line =
        (writeImage
          ("Set ".toList ++ s1.take l1.toNat ++ " = ".toList ++
            s2.take l2.toNat ++ "\r\n".toList ++ [CHAR_NULL]) cap, CLI_FALSE) := by
      unfold cli_set_interpreter
      rw [hp1]
      simp only [if_pos hl1]
      rw [hp2]
      simp only [if_pos hl2]
    rw [hset]
    have hcontent :
        "Set ".toList ++ s1.take l1.toNat ++ " = ".toList ++
            s2.take l2.toNat ++ "\r\n".toList ++ [CHAR_NULL] =
          ("Set ".toList ++ s1.take l1.toNat ++ " = ".toList ++
            s2.take l2.toNat ++ "\r\n".toList) ++ [CHAR_NULL] := by
      simp [List.append_assoc]
    show cstring (writeImage _ cap) = _
    rw [hcontent, cstring_writeImage_sentinel _ cap ?hnul]
    case hnul =>
      intro c hc
      have h1 : ∀ c ∈ "Set ".toList, ¬ c = CHAR_NULL := by decide
      have h2 : ∀ c ∈ " = ".toList, ¬ c = CHAR_NULL := by decide
      have h3 : ∀ c ∈ "\r\n".toList, ¬ c = CHAR_NULL := by decide
      simp only [List.append_assoc, List.mem_append] at hc
      rcases hc with hc | hc | hc | hc | hc
      · exact h1 c hc
      · exact isWordChar_ne_null c (hw1 c hc)
      · exact h2 c hc
      · exact isWordChar_ne_null c (hw2 c hc)
      · exact h3 c hc
  · unfold cli_set_interpreter
    cases hp1 : cli_get_parameter (some line) 1 with
    | none => rfl
    | some pl =>
        obtain ⟨s1, l1⟩ := pl
        by_cases hl1 : l1 < 50
        · simp only [if_pos hl1]
          cases hp2 : cli_get_parameter (some line) 2 with
          | none => rfl
          | some pl2 =>
              obtain ⟨s2, l2⟩ := pl2
              by_cases hl2 : l2 < 50
              · simp [hl2]
              · simp [hl2]
        · simp [hl1]

/-- Witness for C4 at the line `"set a b"`, capacity 64. -/
theorem C4_set_handler_witness :
    (cli_get_parameter (some "set a b".toList) 1 = some ("a b".toList, 1) ∧
      (1 : Int) < 50 ∧
      cli_get_parameter (some "set a b".toList) 2 = some ("b".toList, 1) ∧
      (1 : Int) < 50) ∧
    cstring (cli_set_interpreter 64 "set a b".toList).1 =
      "Set ".toList ++ ("a b".toList.take (1 : Int).toNat) ++ " = ".toList ++
        ("b".toList.take (1 : Int).toNat) ++ "\r\n".toList :=
  ⟨⟨by decide, by decide, by decide, by decide⟩,
    (C4_set_handler "set a b".toList 64).2.1 "a b".toList 1 "b".toList 1
      (by decide) (by decide) (by decide) (by decide)⟩

end EmCli
